import Mathlib

/-!
Shallow embedding of the tileset loading pipeline of `bevy_tileset_core`
(`src/tileset/load.rs` and `src/tileset/asset.rs`), together with proofs of the
specification claims about it.

Modelling conventions:
* byte buffers and decoded images are opaque strings;
* an image handle is the label string it was created from
  (`LoadContext::get_label_handle` is keyed by the label: the host asset server
  returns the handle of the labeled sub-asset, so equal labels give equal handles);
* the `HashMap<AssetId<Image>, PathBuf>` registration table is an association
  list with unique keys, `RwLock::try_write` contention is a boolean flag on the
  loader state;
* external collaborators (byte reads, the `ron` deserializers, the image
  decoder) are parameters of the pipeline, gathered in `AssetEnv`;
* fallible code returns `Option`/`Except`; a `panic` (`Option.none` at the top
  level of `load_image`) is distinguished from returning an error value.
-/

namespace TilesetSpec

/-- Byte buffers read from the asset source, modelled opaquely. -/
abbrev Bytes := String

/-- Decoded image data, modelled opaquely (produced by the external decoder). -/
abbrev Image := String

/-- An image handle, represented by the label string it is keyed by: the source
obtains handles from `LoadContext::get_label_handle(asset_path.to_string())`,
and the host asset server keys labeled handles by that string. -/
abbrev ImageHandle := String

/-- Group identifier of one tile slot (`TileGroupId`, an integer key). -/
abbrev TileGroupId := Nat

/-- Model of a filesystem path (`std::path::Path`/`PathBuf`): an absolute flag
plus the list of components. -/
structure FsPath where
  absolute : Bool
  components : List String
deriving DecidableEq, Repr

/-- Model of `Path::parent`: drop the last component; an empty or root-only
path has no parent. -/
def FsPath.parent (p : FsPath) : Option FsPath :=
  match p.components with
  | [] => none
  | _ => some { p with components := p.components.dropLast }

/-- Model of `Path::join`: joining an absolute path replaces the whole path,
otherwise the components are appended. -/
def FsPath.join (p q : FsPath) : FsPath :=
  if q.absolute then q
  else { absolute := p.absolute, components := p.components ++ q.components }

/-- Render a path back to its string form. -/
def FsPath.render (p : FsPath) : String :=
  (if p.absolute then "/" else "") ++ String.intercalate "/" p.components

/-- Split a character list at every occurrence of the separator. -/
def splitOnChar (c : Char) : List Char → List (List Char)
  | [] => [[]]
  | x :: xs =>
    let r := splitOnChar c xs
    if x = c then [] :: r
    else
      match r with
      | [] => [[x]]
      | y :: ys => (x :: y) :: ys

/-- Nonempty slash-separated components of a path string. -/
def pathComponents (s : String) : List String :=
  ((splitOnChar '/' s.data).filter (fun c => c ≠ [])).map String.mk

/-- Model of `Path::new` on a path string: absolute when it starts with the
separator, with its nonempty components. -/
def parsePath (s : String) : FsPath :=
  { absolute := s.data.head? = some '/', components := pathComponents s }

/-- Model of the extension of one file name: the portion after the last dot;
none when there is no dot, or when the only dot is the leading one of a hidden
file. -/
def fileExtension (name : String) : Option String :=
  let ps := splitOnChar '.' name.data
  if ps.length ≤ 1 then none
  else if name.data.head? = some '.' && ps.length == 2 then none
  else ps.getLast?.map String.mk

/-- Model of `PathBuf::extension` on a path string: the extension of the last
component. In this model strings are always valid UTF-8, so the
`OsStr::to_str` conversion of the source never fails. -/
def pathExtension (p : String) : Option String :=
  fileExtension ((pathComponents p).getLastD p)

/-- Modelled from the spec: `AnimatedTileDef` of the `bevy_tileset_tiles`
crate (its declaration is outside this excerpt; shape fixed by §3 and by its
uses in `load.rs`): an animation speed carried opaquely (an integer here) and
an ordered list of frame image paths. -/
structure AnimatedTileDef where
  speed : Int
  frames : List String

/-- Modelled from the spec: `SimpleTileDefType`, the `Standard | Animated`
restriction of the tile union (no further nesting). -/
inductive SimpleTileDefType where
  | Standard (path : String)
  | Animated (anim : AnimatedTileDef)

/-- Modelled from the spec: `VariantTileDef`, a weighted simple tile. -/
structure VariantTileDef where
  weight : Int
  tile : SimpleTileDefType

/-- Modelled from the spec: `AutoTileDef`, a rule (carried opaquely) with its
weighted variants. -/
structure AutoTileDef where
  rule : Int
  variants : List VariantTileDef

/-- Modelled from the spec: `TileDefType`, the tile-kind tagged union. -/
inductive TileDefType where
  | Standard (path : String)
  | Animated (anim : AnimatedTileDef)
  | Variant (variants : List VariantTileDef)
  | Auto (autos : List AutoTileDef)

/-- Modelled from the spec: `TileDef`, a named tile description. -/
structure TileDef where
  name : String
  tile : TileDefType

/-- Modelled from the spec: `AnimatedTileHandle`, the loaded mirror of
`AnimatedTileDef` (each frame path replaced by a handle). -/
structure AnimatedTileHandle where
  speed : Int
  frames : List ImageHandle

/-- Modelled from the spec: `SimpleTileHandle`. -/
inductive SimpleTileHandle where
  | Standard (handle : ImageHandle)
  | Animated (anim : AnimatedTileHandle)

/-- Modelled from the spec: `VariantTileHandle`. -/
structure VariantTileHandle where
  weight : Int
  tile : SimpleTileHandle

/-- Modelled from the spec: `AutoTileHandle`. -/
structure AutoTileHandle where
  rule : Int
  variants : List VariantTileHandle

/-- Modelled from the spec: `TileHandleType`, mirror of `TileDefType`. -/
inductive TileHandleType where
  | Standard (handle : ImageHandle)
  | Animated (anim : AnimatedTileHandle)
  | Variant (variants : List VariantTileHandle)
  | Auto (autos : List AutoTileHandle)

/-- Modelled from the spec: `TileHandle`, the named loaded mirror of `TileDef`. -/
structure TileHandle where
  name : String
  tile : TileHandleType

/-- The `TextureLoader` trait of `load.rs`: a stateful capability registering
one image path and returning its handle. The state type stands for the
`&mut self` receiver of the trait method. -/
structure TextureLoader (σ : Type) where
  load_texture : σ → String → ImageHandle × σ

/-- Thread a stateful function over a list in order; this models a Rust
`.iter().map(..)` whose closure captures the loader by `&mut`. -/
def mapState {σ α β : Type} (f : σ → α → β × σ) : σ → List α → List β × σ
  | s, [] => ([], s)
  | s, a :: rest =>
    let r := f s a
    let rs := mapState f r.2 rest
    (r.1 :: rs.1, rs.2)

/-- The `load_animated` function of `load.rs`: carry `speed` unchanged and
load every frame path in order. -/
def load_animated {σ : Type} (L : TextureLoader σ) (d : AnimatedTileDef) (s : σ) :
    AnimatedTileHandle × σ :=
  let r := mapState (fun s frame => L.load_texture s frame) s d.frames
  ({ speed := d.speed, frames := r.1 }, r.2)

/-- The `load_variant` function of `load.rs`: carry `weight` unchanged and
load the simple tile underneath. -/
def load_variant {σ : Type} (L : TextureLoader σ) (d : VariantTileDef) (s : σ) :
    VariantTileHandle × σ :=
  match d.tile with
  | .Standard path =>
    let r := L.load_texture s path
    ({ weight := d.weight, tile := .Standard r.1 }, r.2)
  | .Animated anim =>
    let r := load_animated L anim s
    ({ weight := d.weight, tile := .Animated r.1 }, r.2)

/-- The `load_auto` function of `load.rs`: carry `rule` unchanged and load
every weighted variant in order. -/
def load_auto {σ : Type} (L : TextureLoader σ) (d : AutoTileDef) (s : σ) :
    AutoTileHandle × σ :=
  let r := mapState (fun s v => load_variant L v s) s d.variants
  ({ rule := d.rule, variants := r.1 }, r.2)

/-- The body of the per-definition closure inside `load_tile_handles`
(`load.rs` lines 55-79): keep the name, dispatch on the tile kind. -/
def load_tile_handle {σ : Type} (L : TextureLoader σ) (d : TileDef) (s : σ) :
    TileHandle × σ :=
  match d.tile with
  | .Standard path =>
    let r := L.load_texture s path
    ({ name := d.name, tile := .Standard r.1 }, r.2)
  | .Animated anim =>
    let r := load_animated L anim s
    ({ name := d.name, tile := .Animated r.1 }, r.2)
  | .Variant vs =>
    let r := mapState (fun s v => load_variant L v s) s vs
    ({ name := d.name, tile := .Variant r.1 }, r.2)
  | .Auto autos =>
    let r := mapState (fun s a => load_auto L a s) s autos
    ({ name := d.name, tile := .Auto r.1 }, r.2)

/-- The `load_tile_handles` function of `load.rs`: a stateful,
structure-preserving map over the tile definitions, in their given order. -/
def load_tile_handles {σ : Type} (L : TextureLoader σ) (tiles : List TileDef) (s : σ) :
    List TileHandle × σ :=
  mapState (fun s d => load_tile_handle L d s) s tiles

/-- State of `TilesetTextureLoader` (`asset.rs`): the `bytes` table mapping
each handle identity to the path to load (an association list with unique
keys, standing for the `HashMap` behind the `RwLock`), plus whether a
`try_write` on the lock would currently fail. -/
structure TilesetTextureLoaderState where
  bytes : List (ImageHandle × String)
  lockHeld : Bool
deriving DecidableEq, Repr

/-- Model of `LoadContext::get_label_handle`: the host asset server keys
labeled handles by the label string, so the same label always yields the same
handle; the handle is represented by its label. -/
def get_label_handle (label : String) : ImageHandle := label

/-- Model of `HashMap::insert` on the association-list table: overwrite the
entry at the key when present, otherwise append a new entry. -/
def insertAssoc (t : List (ImageHandle × String)) (k : ImageHandle) (v : String) :
    List (ImageHandle × String) :=
  if (t.map Prod.fst).contains k then
    t.map (fun kv => if kv.1 = k then (k, v) else kv)
  else t ++ [(k, v)]

/-- The `TilesetTextureLoader::load_texture` method (`asset.rs` lines 66-81):
derive the handle from the asset path string via `get_label_handle`; then,
only when `try_write` on the lock succeeds, record handle-id → path in the
`bytes` table; the handle is returned either way. -/
def TilesetTextureLoader.load_texture (s : TilesetTextureLoaderState) (path : String) :
    ImageHandle × TilesetTextureLoaderState :=
  (get_label_handle path,
   if s.lockHeld then s
   else { s with bytes := insertAssoc s.bytes (get_label_handle path) path })

/-- The `TextureLoader` implementation of `TilesetTextureLoader`. -/
def tilesetTextureLoader : TextureLoader TilesetTextureLoaderState :=
  { load_texture := TilesetTextureLoader.load_texture }

/-- Modelled from the spec: the kinds of `TilesetError` relevant to loading.
The enum itself is declared outside this excerpt; `ReadAssetBytesError`,
`InvalidDefinition` and `ImageError` are the constructors named in `asset.rs`,
while `ReadError` and `ParseError` name the spec taxonomy kinds produced by
the two top-level fallible steps of the loader (`reader.read_to_end` and the
tileset-definition deserialization). -/
inductive TilesetError where
  | ReadError
  | ParseError
  | ReadAssetBytesError
  | InvalidDefinition
  | ImageError
deriving DecidableEq, Repr

/-- The `TilesetDef` structure (`asset.rs` lines 38-47). The `tiles` field is
a `BTreeMap TileGroupId String`, modelled as its iteration sequence: a list of
key-value pairs; the `BTreeMap` invariant (strictly ascending unique keys) is
stated as a hypothesis where a claim depends on it. -/
structure TilesetDef where
  name : Option String
  id : Nat
  tiles : List (TileGroupId × String)

/-- External collaborators of the loader, as consumed by `asset.rs`:
`read_asset_bytes` (byte fetch, fails with a read error), the two `ron`
deserializers (fail on malformed input), and `Image::from_buffer` (decode
bytes with a declared extension, fails with an image error). -/
structure AssetEnv where
  read_asset_bytes : String → Option Bytes
  parse_tileset : Bytes → Option TilesetDef
  parse_tile : Bytes → Option TileDef
  from_buffer : Bytes → String → Option Image

/-- Tile-path resolution of `asset.rs` lines 169-173: a reference is joined to
the parent directory of the tileset definition file when that file has a
parent, and is used as-is otherwise. -/
def resolveTilePath (ctx : FsPath) (ref : FsPath) : FsPath :=
  match ctx.parent with
  | some parent => parent.join ref
  | none => ref

/-- One iteration of the definition-loading loop of `asset.rs` lines 167-182:
resolve the reference against the tileset file's directory, read the bytes
(`ReadAssetBytesError` on failure) and deserialize the tile definition
(`InvalidDefinition` on failure). -/
def stepTileDef (env : AssetEnv) (ctx : FsPath) (ref : String) :
    Except TilesetError TileDef :=
  let path := resolveTilePath ctx (parsePath ref)
  match env.read_asset_bytes path.render with
  | none => .error .ReadAssetBytesError
  | some bytes =>
    match env.parse_tile bytes with
    | none => .error .InvalidDefinition
    | some d => .ok d

/-- The definition-loading loop of `asset.rs` lines 166-182: walk the tiles
mapping in its iteration order, short-circuiting on the first failure. -/
def loadTileDefs (env : AssetEnv) (ctx : FsPath) :
    List (TileGroupId × String) → Except TilesetError (List TileDef)
  | [] => .ok []
  | e :: rest =>
    match stepTileDef env ctx e.2 with
    | .error err => .error err
    | .ok d =>
      match loadTileDefs env ctx rest with
      | .error err => .error err
      | .ok ds => .ok (d :: ds)

/-- The `load_image` function (`asset.rs` lines 319-340): read the bytes
(error value on failure), then unwrap the path's extension — `none` at the
top level models the panic of `extension().unwrap()` — and decode the bytes
(error value on failure). -/
def load_image (env : AssetEnv) (imgId : ImageHandle) (path : String) :
    Option (Except TilesetError (ImageHandle × Image)) :=
  match env.read_asset_bytes path with
  | none => some (.error .ReadAssetBytesError)
  | some bytes =>
    match pathExtension path with
    | none => none
    | some ext =>
      match env.from_buffer bytes ext with
      | none => some (.error .ImageError)
      | some img => some (.ok (imgId, img))

/-- The image phase of `asset.rs` lines 193-205: load every registered image
in turn, then keep only the successful results (`filter_map(|x| x.ok())`).
`none` models a panic inside `load_image`. -/
def collectImages (env : AssetEnv) :
    List (ImageHandle × String) → Option (List (ImageHandle × Image))
  | [] => some []
  | kv :: rest =>
    match load_image env kv.1 kv.2 with
    | none => none
    | some r =>
      match collectImages env rest with
      | none => none
      | some imgs =>
        match r with
        | .ok q => some (q :: imgs)
        | .error _ => some imgs

/-- What the loader hands to the assembly phase (the `TilesetBuilder` of the
crate lives outside this excerpt): the ordered `(TileGroupId, TileHandle)`
pairs, the decoded image set, and the registration table. -/
structure LoadOutput where
  tile_handles : List (TileGroupId × TileHandle)
  images : List (ImageHandle × Image)
  bytes : List (ImageHandle × String)

/-- The `TilesetAssetLoader::load` pipeline (`asset.rs` lines 146-214), up to
the assembly boundary: read the definition bytes (`none` input models a
failed `read_to_end`), deserialize the tileset definition, load every tile
definition in mapping order, resolve the handles with a fresh
`TilesetTextureLoader`, zip the group ids with the handles, and run the
lenient image phase. The outer `Option` is `none` when the image phase
panics. -/
def tilesetLoad (env : AssetEnv) (ctx : FsPath) (raw : Option Bytes)
    (lockHeld : Bool) : Option (Except TilesetError LoadOutput) :=
  match raw with
  | none => some (.error .ReadError)
  | some bytes =>
    match env.parse_tileset bytes with
    | none => some (.error .ParseError)
    | some d =>
      match loadTileDefs env ctx d.tiles with
      | .error e => some (.error e)
      | .ok defs =>
        let r := load_tile_handles tilesetTextureLoader defs ⟨[], lockHeld⟩
        match collectImages env r.2.bytes with
        | none => none
        | some imgs =>
          some (.ok { tile_handles := (d.tiles.map Prod.fst).zip r.1,
                      images := imgs, bytes := r.2.bytes })

/-! Concrete inputs used by the witness theorems. -/

/-- Tile definition produced by the witness environments. -/
def tdW : TileDef := { name := "t", tile := .Standard "img.png" }

/-- Tileset definition used by the success witness. -/
def dW : TilesetDef :=
  { name := none, id := 7, tiles := [(1, "a.tile"), (2, "b.tile")] }

/-- Tileset definition used by the failure witness. -/
def dFail : TilesetDef :=
  { name := none, id := 7, tiles := [(1, "a.tile"), (2, "b.tile"), (3, "c.tile")] }

/-- Context path of the witnesses: the tileset file `dir/ts.ron`. -/
def ctxW : FsPath := { absolute := false, components := ["dir", "ts.ron"] }

/-- Environment where every external step succeeds. -/
def envOk : AssetEnv :=
  { read_asset_bytes := fun _ => some "BYTES",
    parse_tileset := fun _ => some dW,
    parse_tile := fun _ => some tdW,
    from_buffer := fun _ _ => some "IMG" }

/-- Environment where reading the second referenced tile file fails and
everything else succeeds. -/
def envFail : AssetEnv :=
  { read_asset_bytes := fun p => if p = "dir/b.tile" then none else some "BYTES",
    parse_tileset := fun _ => some dFail,
    parse_tile := fun _ => some tdW,
    from_buffer := fun _ _ => some "IMG" }

/-- Environment for the C4 witness: fetching `a.png` fails, `b.png` decodes. -/
def envImg : AssetEnv :=
  { read_asset_bytes := fun p => if p = "a.png" then none else some "BYTES",
    parse_tileset := fun _ => none,
    parse_tile := fun _ => none,
    from_buffer := fun _ _ => some "IMG" }

/-- Registration table for the C4 witness. -/
def tableImg : List (ImageHandle × String) := [("a.png", "a.png"), ("b.png", "b.png")]

/-- Decidable equality on `Except`, used to evaluate witness hypotheses. -/
instance {ε α : Type} [DecidableEq ε] [DecidableEq α] : DecidableEq (Except ε α) :=
  fun a b =>
    match a, b with
    | .error e₁, .error e₂ =>
      if h : e₁ = e₂ then .isTrue (by rw [h]) else .isFalse (by intro hc; cases hc; exact h rfl)
    | .ok a₁, .ok a₂ =>
      if h : a₁ = a₂ then .isTrue (by rw [h]) else .isFalse (by intro hc; cases hc; exact h rfl)
    | .error _, .ok _ => .isFalse (by intro hc; cases hc)
    | .ok _, .error _ => .isFalse (by intro hc; cases hc)

/-! Structural correspondence predicates between a definition tree and a
handle tree: same variant tag, same cardinalities, `speed`, `weight` and
`rule` carried unchanged. -/

/-- Correspondence for a simple (non-nested) tile. -/
def matchesSimple : SimpleTileDefType → SimpleTileHandle → Prop
  | .Standard _, .Standard _ => True
  | .Animated a, .Animated h => h.speed = a.speed ∧ h.frames.length = a.frames.length
  | _, _ => False

/-- Correspondence for a weighted variant. -/
def matchesVariant (d : VariantTileDef) (h : VariantTileHandle) : Prop :=
  h.weight = d.weight ∧ matchesSimple d.tile h.tile

/-- Correspondence for an auto-tile rule entry. -/
def matchesAuto (d : AutoTileDef) (h : AutoTileHandle) : Prop :=
  h.rule = d.rule ∧ List.Forall₂ matchesVariant d.variants h.variants

/-- Correspondence for the tile-kind union. -/
def matchesKind : TileDefType → TileHandleType → Prop
  | .Standard _, .Standard _ => True
  | .Animated a, .Animated h => h.speed = a.speed ∧ h.frames.length = a.frames.length
  | .Variant ds, .Variant hs => List.Forall₂ matchesVariant ds hs
  | .Auto ds, .Auto hs => List.Forall₂ matchesAuto ds hs
  | _, _ => False

/-- Correspondence for a whole tile: same name and matching kind. -/
def matchesDef (d : TileDef) (h : TileHandle) : Prop :=
  h.name = d.name ∧ matchesKind d.tile h.tile

/-! State-free description of resolution under the concrete
`TilesetTextureLoader`: since its handle is derived from the path label alone,
resolution is the pure map replacing every leaf path by its label handle. -/

/-- State-free resolution of a simple tile. -/
def resolveSimplePure : SimpleTileDefType → SimpleTileHandle
  | .Standard path => .Standard (get_label_handle path)
  | .Animated a => .Animated { speed := a.speed, frames := a.frames.map get_label_handle }

/-- State-free resolution of a weighted variant. -/
def resolveVariantPure (d : VariantTileDef) : VariantTileHandle :=
  { weight := d.weight, tile := resolveSimplePure d.tile }

/-- State-free resolution of an auto-tile rule entry. -/
def resolveAutoPure (d : AutoTileDef) : AutoTileHandle :=
  { rule := d.rule, variants := d.variants.map resolveVariantPure }

/-- State-free resolution of a whole tile definition. -/
def resolveTileDefPure (d : TileDef) : TileHandle :=
  { name := d.name,
    tile :=
      match d.tile with
      | .Standard path => .Standard (get_label_handle path)
      | .Animated a => .Animated { speed := a.speed, frames := a.frames.map get_label_handle }
      | .Variant vs => .Variant (vs.map resolveVariantPure)
      | .Auto autos => .Auto (autos.map resolveAutoPure) }

/-! Helper lemmas about `mapState`. -/

theorem mapState_length {σ α β : Type} (f : σ → α → β × σ) (s : σ) (l : List α) :
    (mapState f s l).1.length = l.length := by
  induction l generalizing s with
  | nil => rfl
  | cons a rest ih => simp [mapState, ih]

theorem mapState_fst_eq_map {σ α β : Type} (f : σ → α → β × σ) (g : α → β)
    (h : ∀ s a, (f s a).1 = g a) (s : σ) (l : List α) :
    (mapState f s l).1 = l.map g := by
  induction l generalizing s with
  | nil => rfl
  | cons a rest ih => simp [mapState, h, ih]

theorem mapState_forall₂ {σ α β : Type} (f : σ → α → β × σ) (R : α → β → Prop)
    (h : ∀ s a, R a (f s a).1) (s : σ) (l : List α) :
    List.Forall₂ R l (mapState f s l).1 := by
  induction l generalizing s with
  | nil => exact List.Forall₂.nil
  | cons a rest ih => exact List.Forall₂.cons (h s a) (ih _)

/-! Structural correspondence of the generic resolution functions. -/

theorem load_animated_shape {σ : Type} (L : TextureLoader σ) (d : AnimatedTileDef) (s : σ) :
    (load_animated L d s).1.speed = d.speed ∧
    (load_animated L d s).1.frames.length = d.frames.length := by
  constructor
  · rfl
  · simp [load_animated, mapState_length]

theorem load_variant_matches {σ : Type} (L : TextureLoader σ) (d : VariantTileDef) (s : σ) :
    matchesVariant d (load_variant L d s).1 := by
  obtain ⟨w, t⟩ := d
  cases t with
  | Standard path => exact ⟨rfl, trivial⟩
  | Animated anim =>
    refine ⟨rfl, ?_⟩
    simpa [matchesSimple] using load_animated_shape L anim s

theorem load_auto_matches {σ : Type} (L : TextureLoader σ) (d : AutoTileDef) (s : σ) :
    matchesAuto d (load_auto L d s).1 := by
  refine ⟨rfl, ?_⟩
  exact mapState_forall₂ _ _ (fun s v => load_variant_matches L v s) s d.variants

theorem load_tile_handle_matches {σ : Type} (L : TextureLoader σ) (d : TileDef) (s : σ) :
    matchesDef d (load_tile_handle L d s).1 := by
  obtain ⟨nm, t⟩ := d
  cases t with
  | Standard path => exact ⟨rfl, trivial⟩
  | Animated anim =>
    refine ⟨rfl, ?_⟩
    simpa [load_tile_handle, matchesKind] using load_animated_shape L anim s
  | Variant vs =>
    refine ⟨rfl, ?_⟩
    exact mapState_forall₂ _ _ (fun s v => load_variant_matches L v s) s vs
  | Auto autos =>
    refine ⟨rfl, ?_⟩
    exact mapState_forall₂ _ _ (fun s a => load_auto_matches L a s) s autos

/-! State-freeness of the concrete loader. -/

theorem concrete_load_texture_fst (s : TilesetTextureLoaderState) (p : String) :
    (TilesetTextureLoader.load_texture s p).1 = get_label_handle p := rfl

theorem concrete_load_animated_fst (d : AnimatedTileDef) (s : TilesetTextureLoaderState) :
    (load_animated tilesetTextureLoader d s).1 =
      { speed := d.speed, frames := d.frames.map get_label_handle } := by
  simp only [load_animated]
  rw [mapState_fst_eq_map _ get_label_handle (fun _ _ => rfl)]

theorem concrete_load_variant_fst (d : VariantTileDef) (s : TilesetTextureLoaderState) :
    (load_variant tilesetTextureLoader d s).1 = resolveVariantPure d := by
  obtain ⟨w, t⟩ := d
  cases t with
  | Standard path => rfl
  | Animated anim =>
    simp only [load_variant, resolveVariantPure, resolveSimplePure]
    rw [concrete_load_animated_fst]

theorem concrete_load_auto_fst (d : AutoTileDef) (s : TilesetTextureLoaderState) :
    (load_auto tilesetTextureLoader d s).1 = resolveAutoPure d := by
  simp only [load_auto, resolveAutoPure]
  rw [mapState_fst_eq_map _ resolveVariantPure (fun s v => concrete_load_variant_fst v s)]

theorem concrete_load_tile_handle_fst (d : TileDef) (s : TilesetTextureLoaderState) :
    (load_tile_handle tilesetTextureLoader d s).1 = resolveTileDefPure d := by
  obtain ⟨nm, t⟩ := d
  cases t with
  | Standard path => rfl
  | Animated anim =>
    simp only [load_tile_handle, resolveTileDefPure]
    rw [concrete_load_animated_fst]
  | Variant vs =>
    simp only [load_tile_handle, resolveTileDefPure]
    rw [mapState_fst_eq_map _ resolveVariantPure (fun s v => concrete_load_variant_fst v s)]
  | Auto autos =>
    simp only [load_tile_handle, resolveTileDefPure]
    rw [mapState_fst_eq_map _ resolveAutoPure (fun s a => concrete_load_auto_fst a s)]

/-- C1: resolution is a structure-preserving, order-preserving, total map.
For every loader, `load_tile_handles` returns one handle per input definition,
in order, with the same name, the same variant tag and the same cardinalities,
carrying `speed`, weights and rule metadata unchanged; and under the concrete
`TilesetTextureLoader` it is exactly the pure map replacing every leaf path by
its label handle, so no leaf path is dropped or reordered. -/
theorem c1_load_tile_handles_structure :
    (∀ (σ : Type) (L : TextureLoader σ) (tiles : List TileDef) (s : σ),
      List.Forall₂ matchesDef tiles (load_tile_handles L tiles s).1) ∧
    (∀ (tiles : List TileDef) (s : TilesetTextureLoaderState),
      (load_tile_handles tilesetTextureLoader tiles s).1 = tiles.map resolveTileDefPure) :=
  ⟨fun _ L tiles s =>
    mapState_forall₂ _ _ (fun s d => load_tile_handle_matches L d s) s tiles,
   fun tiles s =>
    mapState_fst_eq_map _ resolveTileDefPure
      (fun s d => concrete_load_tile_handle_fst d s) s tiles⟩

/-- C5 counterexample: the claim asserts that two registrations of the same
path string yield two distinct resource identities; on the code the opposite
holds at this concrete input — registering `img.png` twice in a row on a
fresh loader returns the very same handle both times. -/
theorem c5_counterexample :
    (TilesetTextureLoader.load_texture ⟨[], false⟩ "img.png").1 =
      (TilesetTextureLoader.load_texture
        (TilesetTextureLoader.load_texture ⟨[], false⟩ "img.png").2 "img.png").1 := rfl

/-- C5 (amended): `load_texture` derives the returned resource identity from
the path's label string alone and always succeeds synchronously; two
registrations of the same path string yield the same resource identity
(identities are deduplicated by path equality at the handle level). -/
theorem c5_amended_path_keyed_identity (s : TilesetTextureLoaderState) (p : String) :
    (TilesetTextureLoader.load_texture s p).1 = get_label_handle p ∧
    (TilesetTextureLoader.load_texture
      (TilesetTextureLoader.load_texture s p).2 p).1 =
      (TilesetTextureLoader.load_texture s p).1 :=
  ⟨rfl, rfl⟩

/-- C6: registration is best-effort and never fails — `load_texture` always
returns the handle derived from the path, and when the write lock cannot be
acquired the state (in particular the identity-to-path table) is left
completely unchanged. -/
theorem c6_best_effort_registration (s : TilesetTextureLoaderState) (p : String) :
    (TilesetTextureLoader.load_texture s p).1 = get_label_handle p ∧
    (s.lockHeld = true → (TilesetTextureLoader.load_texture s p).2 = s) := by
  refine ⟨rfl, fun h => ?_⟩
  simp [TilesetTextureLoader.load_texture, h]

/-- Witness for C6 at a concrete held-lock state. -/
theorem c6_best_effort_registration_witness :
    (TilesetTextureLoader.load_texture ⟨[("x", "x")], true⟩ "a.png").1 =
      get_label_handle "a.png" ∧
    (TilesetTextureLoader.load_texture ⟨[("x", "x")], true⟩ "a.png").2 =
      ⟨[("x", "x")], true⟩ :=
  ⟨(c6_best_effort_registration ⟨[("x", "x")], true⟩ "a.png").1,
   (c6_best_effort_registration ⟨[("x", "x")], true⟩ "a.png").2 rfl⟩

/-! Preservation of table entries by registration. The key invariant of
reachable loader states: every table entry was inserted by `load_texture`, so
its key is the label handle of its path. -/

/-- Invariant of reachable registration tables. -/
def tableWF (t : List (ImageHandle × String)) : Prop :=
  ∀ kv ∈ t, kv.1 = get_label_handle kv.2

theorem insertAssoc_mem_of_wf (t : List (ImageHandle × String)) (p : String)
    (hwf : tableWF t) : ∀ kv ∈ t, kv ∈ insertAssoc t (get_label_handle p) p := by
  intro kv hkv
  unfold insertAssoc
  split
  · refine List.mem_map.mpr ⟨kv, hkv, ?_⟩
    by_cases hk : kv.1 = get_label_handle p
    · have hv : kv.2 = p := by
        have h1 := hwf kv hkv
        rw [h1] at hk
        exact hk
      rw [if_pos hk, ← hk, ← hv]
    · rw [if_neg hk]
  · exact List.mem_append_left _ hkv

theorem load_texture_preserves_entries (s : TilesetTextureLoaderState) (p : String)
    (hwf : tableWF s.bytes) :
    ∀ kv ∈ s.bytes, kv ∈ (TilesetTextureLoader.load_texture s p).2.bytes := by
  intro kv hkv
  unfold TilesetTextureLoader.load_texture
  by_cases h : s.lockHeld
  · simpa [h] using hkv
  · simpa [h] using insertAssoc_mem_of_wf s.bytes p hwf kv hkv

theorem load_texture_preserves_wf (s : TilesetTextureLoaderState) (p : String)
    (hwf : tableWF s.bytes) : tableWF (TilesetTextureLoader.load_texture s p).2.bytes := by
  unfold TilesetTextureLoader.load_texture
  by_cases h : s.lockHeld
  · simpa [h] using hwf
  · simp only [h, if_neg, Bool.false_eq_true, not_false_eq_true]
    intro kv hkv
    unfold insertAssoc at hkv
    split at hkv
    · obtain ⟨ab, hab, heq⟩ := List.mem_map.mp hkv
      by_cases hk : ab.1 = get_label_handle p
      · rw [if_pos hk] at heq
        rw [← heq]
      · rw [if_neg hk] at heq
        rw [← heq]
        exact hwf ab hab
    · rcases List.mem_append.mp hkv with hmem | hmem
      · exact hwf kv hmem
      · have : kv = (get_label_handle p, p) := by simpa using hmem
        rw [this]

/-- C7: registering the same resource path twice through the same loader
instance does not corrupt the registration table — on any reachable state
(every entry keyed by its path's label) both calls return the handle and every
previously present entry is still present after both calls. -/
theorem c7_double_registration_no_loss (s : TilesetTextureLoaderState) (p : String)
    (hwf : tableWF s.bytes) :
    (TilesetTextureLoader.load_texture s p).1 = get_label_handle p ∧
    (TilesetTextureLoader.load_texture
      (TilesetTextureLoader.load_texture s p).2 p).1 = get_label_handle p ∧
    ∀ kv ∈ s.bytes, kv ∈ (TilesetTextureLoader.load_texture
      (TilesetTextureLoader.load_texture s p).2 p).2.bytes := by
  refine ⟨rfl, rfl, fun kv hkv => ?_⟩
  exact load_texture_preserves_entries _ p
    (load_texture_preserves_wf s p hwf)
    kv (load_texture_preserves_entries s p hwf kv hkv)

/-- Witness for C7 at a concrete state holding one prior entry. -/
theorem c7_double_registration_no_loss_witness :
    (TilesetTextureLoader.load_texture ⟨[("x", "x")], false⟩ "a.png").1 =
      get_label_handle "a.png" ∧
    ("x", "x") ∈ (TilesetTextureLoader.load_texture
      (TilesetTextureLoader.load_texture ⟨[("x", "x")], false⟩ "a.png").2
      "a.png").2.bytes := by
  have H := c7_double_registration_no_loss ⟨[("x", "x")], false⟩ "a.png"
    (by intro kv hkv; rw [List.mem_singleton.mp hkv]; exact rfl)
  exact ⟨H.1, H.2.2 ("x", "x") (by decide)⟩

/-- C10: the handle returned by `load_texture` is determined by the path
argument alone — it equals the label handle of the path, and two calls with
equal paths return equal handles in any two loader states, including states
where the write lock is held. -/
theorem c10_handle_determined_by_path (s₁ s₂ : TilesetTextureLoaderState) (p : String) :
    (TilesetTextureLoader.load_texture s₁ p).1 = get_label_handle p ∧
    (TilesetTextureLoader.load_texture s₁ p).1 =
      (TilesetTextureLoader.load_texture s₂ p).1 :=
  ⟨rfl, rfl⟩

/-! Helper lemmas for the pipeline-level claims. -/

theorem get?_zip_some {α β : Type} (l₁ : List α) (l₂ : List β) (n : Nat) (a : α) (b : β)
    (h₁ : l₁.get? n = some a) (h₂ : l₂.get? n = some b) :
    (l₁.zip l₂).get? n = some (a, b) := by
  induction l₁ generalizing l₂ n with
  | nil => simp at h₁
  | cons x l₁ ih =>
    cases l₂ with
    | nil => simp at h₂
    | cons y l₂ =>
      cases n with
      | zero =>
        simp only [List.get?] at h₁ h₂
        injection h₁ with h₁
        injection h₂ with h₂
        rw [h₁, h₂] at *
        rfl
      | succ n =>
        simp only [List.get?] at h₁ h₂ ⊢
        exact ih l₂ n h₁ h₂

theorem loadTileDefs_length (env : AssetEnv) (ctx : FsPath) :
    ∀ (l : List (TileGroupId × String)) (defs : List TileDef),
      loadTileDefs env ctx l = .ok defs → defs.length = l.length := by
  intro l
  induction l with
  | nil =>
    intro defs h
    simp only [loadTileDefs] at h
    injection h with h
    rw [← h]
    rfl
  | cons e rest ih =>
    intro defs h
    simp only [loadTileDefs] at h
    cases hs : stepTileDef env ctx e.2 with
    | error err => rw [hs] at h; simp at h
    | ok td =>
      rw [hs] at h
      cases hr : loadTileDefs env ctx rest with
      | error err => rw [hr] at h; simp at h
      | ok ds =>
        rw [hr] at h
        simp only [] at h
        injection h with h
        rw [← h, List.length_cons, List.length_cons, ih ds hr]

theorem loadTileDefs_first_error (env : AssetEnv) (ctx : FsPath) :
    ∀ (pre : List (TileGroupId × String)) (e : TileGroupId × String)
      (post : List (TileGroupId × String)) (err : TilesetError),
      (∀ x ∈ pre, ∃ td, stepTileDef env ctx x.2 = .ok td) →
      stepTileDef env ctx e.2 = .error err →
      loadTileDefs env ctx (pre ++ e :: post) = .error err := by
  intro pre
  induction pre with
  | nil =>
    intro e post err _ herr
    simp only [List.nil_append, loadTileDefs, herr]
  | cons x pre ih =>
    intro e post err hok herr
    obtain ⟨td, htd⟩ := hok x (List.mem_cons_self x pre)
    have hrest := ih e post err (fun y hy => hok y (List.mem_cons_of_mem x hy)) herr
    simp only [List.cons_append, loadTileDefs, htd, List.append_eq, hrest]

theorem load_image_ok_key (env : AssetEnv) (k : ImageHandle) (p : String)
    (q : ImageHandle × Image) (h : load_image env k p = some (.ok q)) : q.1 = k := by
  cases hr : env.read_asset_bytes p with
  | none => simp [load_image, hr] at h
  | some b =>
    cases he : pathExtension p with
    | none => simp [load_image, hr, he] at h
    | some ext =>
      cases hb : env.from_buffer b ext with
      | none => simp [load_image, hr, he, hb] at h
      | some img =>
        simp only [load_image, hr, he, hb, Option.some.injEq, Except.ok.injEq] at h
        rw [← h]

theorem collectImages_keys (env : AssetEnv) :
    ∀ (t : List (ImageHandle × String)) (imgs : List (ImageHandle × Image)),
      collectImages env t = some imgs → ∀ pr ∈ imgs, pr.1 ∈ t.map Prod.fst := by
  intro t
  induction t with
  | nil =>
    intro imgs h pr hpr
    simp only [collectImages] at h
    injection h with h
    rw [← h] at hpr
    simp at hpr
  | cons kv rest ih =>
    intro imgs h pr hpr
    simp only [collectImages] at h
    cases hli : load_image env kv.1 kv.2 with
    | none => rw [hli] at h; simp at h
    | some r =>
      rw [hli] at h
      cases hc : collectImages env rest with
      | none => rw [hc] at h; simp at h
      | some imgsR =>
        rw [hc] at h
        cases r with
        | ok q =>
          simp only [Option.some.injEq] at h
          rw [← h] at hpr
          rcases List.mem_cons.mp hpr with hpr | hpr
          · rw [hpr, load_image_ok_key env kv.1 kv.2 q hli]
            exact List.mem_map_of_mem Prod.fst (List.mem_cons_self kv rest)
          · exact List.mem_cons_of_mem kv.1 (ih imgsR hc pr hpr)
        | error e0 =>
          simp only [Option.some.injEq] at h
          rw [← h] at hpr
          exact List.mem_cons_of_mem kv.1 (ih imgsR hc pr hpr)

theorem collectImages_spec (env : AssetEnv) :
    ∀ (t : List (ImageHandle × String)),
      (t.map Prod.fst).Nodup →
      (∀ kv ∈ t, load_image env kv.1 kv.2 ≠ none) →
      ∃ imgs, collectImages env t = some imgs ∧
        (∀ kv ∈ t, ∀ e, load_image env kv.1 kv.2 = some (.error e) →
          ∀ img, (kv.1, img) ∉ imgs) ∧
        (∀ kv ∈ t, ∀ q, load_image env kv.1 kv.2 = some (.ok q) → q ∈ imgs) := by
  intro t
  induction t with
  | nil =>
    intro _ _
    exact ⟨[], rfl, by simp, by simp⟩
  | cons kv rest ih =>
    intro hnodup hnp
    rw [List.map_cons, List.nodup_cons] at hnodup
    obtain ⟨hknotin, hnodup'⟩ := hnodup
    obtain ⟨imgsR, hR, habsR, hmemR⟩ :=
      ih hnodup' (fun x hx => hnp x (List.mem_cons_of_mem kv hx))
    cases hli : load_image env kv.1 kv.2 with
    | none => exact absurd hli (hnp kv (List.mem_cons_self kv rest))
    | some r =>
      cases r with
      | error e0 =>
        refine ⟨imgsR, ?_, ?_, ?_⟩
        · simp only [collectImages, hli, hR]
        · intro x hx e he img hm
          rcases List.mem_cons.mp hx with hx | hx
          · rw [hx] at hm
            have := collectImages_keys env rest imgsR hR (kv.1, img) hm
            exact hknotin this
          · exact habsR x hx e he img hm
        · intro x hx q hq
          rcases List.mem_cons.mp hx with hx | hx
          · rw [hx] at hq
            rw [hli] at hq
            simp at hq
          · exact hmemR x hx q hq
      | ok q0 =>
        have hq0 : q0.1 = kv.1 := load_image_ok_key env kv.1 kv.2 q0 hli
        refine ⟨q0 :: imgsR, ?_, ?_, ?_⟩
        · simp only [collectImages, hli, hR]
        · intro x hx e he img hm
          rcases List.mem_cons.mp hx with hx | hx
          · rw [hx, hli] at he
            simp at he
          · rcases List.mem_cons.mp hm with hm | hm
            · have hx1 : x.1 = kv.1 := by
                have h1 : (x.1, img).1 = q0.1 := by rw [hm]
                simpa [hq0] using h1
              exact hknotin (by rw [← hx1]; exact List.mem_map_of_mem Prod.fst hx)
            · exact habsR x hx e he img hm
        · intro x hx q hq
          rcases List.mem_cons.mp hx with hx | hx
          · rw [hx, hli] at hq
            simp only [Option.some.injEq, Except.ok.injEq] at hq
            rw [← hq]
            exact List.mem_cons_self q0 imgsR
          · exact List.mem_cons_of_mem q0 (hmemR x hx q hq)

/-- C2: the loader walks the tiles mapping in its iteration order — sorted by
key, which is the `BTreeMap` invariant stated here as the `Chain'` hypothesis —
and the assembled sequence pairs the nth group id of that order with the
handle resolved from the nth tile definition. -/
theorem c2_sorted_mapping_order (env : AssetEnv) (ctx : FsPath) (raw : Bytes)
    (lock : Bool) (d : TilesetDef) (defs : List TileDef)
    (imgs : List (ImageHandle × Image))
    (hparse : env.parse_tileset raw = some d)
    (hsorted : List.Chain' (fun a b : TileGroupId × String => a.1 < b.1) d.tiles)
    (hdefs : loadTileDefs env ctx d.tiles = .ok defs)
    (himgs : collectImages env
        (load_tile_handles tilesetTextureLoader defs ⟨[], lock⟩).2.bytes = some imgs) :
    tilesetLoad env ctx (some raw) lock = some (.ok
      { tile_handles := (d.tiles.map Prod.fst).zip
          (load_tile_handles tilesetTextureLoader defs ⟨[], lock⟩).1,
        images := imgs,
        bytes := (load_tile_handles tilesetTextureLoader defs ⟨[], lock⟩).2.bytes }) ∧
    ∀ n g ref, d.tiles.get? n = some (g, ref) →
      ∃ h, (load_tile_handles tilesetTextureLoader defs ⟨[], lock⟩).1.get? n = some h ∧
        ((d.tiles.map Prod.fst).zip
          (load_tile_handles tilesetTextureLoader defs ⟨[], lock⟩).1).get? n =
          some (g, h) := by
  constructor
  · simp only [tilesetLoad, hparse, hdefs, himgs]
  · intro n g ref hget
    have hlen : defs.length = d.tiles.length := loadTileDefs_length env ctx d.tiles defs hdefs
    have hhl : (load_tile_handles tilesetTextureLoader defs ⟨[], lock⟩).1.length =
        d.tiles.length := by
      rw [load_tile_handles, mapState_length, hlen]
    obtain ⟨hn, -⟩ := List.get?_eq_some.mp hget
    have hn₂ : n < (load_tile_handles tilesetTextureLoader defs ⟨[], lock⟩).1.length := by
      rw [hhl]
      exact hn
    refine ⟨_, List.get?_eq_get hn₂, ?_⟩
    have hg : (d.tiles.map Prod.fst).get? n = some g := by
      rw [List.get?_map, hget]
      rfl
    exact get?_zip_some _ _ n _ _ hg (List.get?_eq_get hn₂)

/-- Witness for C2: the all-succeeding environment loads a two-tile mapping
and pairs its sorted group ids with the handles positionally. -/
theorem c2_sorted_mapping_order_witness :
    tilesetLoad envOk ctxW (some "RAW") false = some (.ok
      { tile_handles := (dW.tiles.map Prod.fst).zip
          (load_tile_handles tilesetTextureLoader [tdW, tdW] ⟨[], false⟩).1,
        images := [("img.png", "IMG")],
        bytes := (load_tile_handles tilesetTextureLoader [tdW, tdW] ⟨[], false⟩).2.bytes }) :=
  (c2_sorted_mapping_order envOk ctxW "RAW" false dW [tdW, tdW] [("img.png", "IMG")]
    rfl (by unfold dW; simp [List.chain'_cons]) rfl rfl).1

/-- C3: a read or parse failure of the top-level tileset definition, or of any
referenced tile-definition file, makes the whole load return an error — the
error of the first structural failure in mapping order — and no output value
is produced. -/
theorem c3_structural_failure_aborts :
    (∀ (env : AssetEnv) (ctx : FsPath) (lock : Bool),
      tilesetLoad env ctx none lock = some (.error .ReadError)) ∧
    (∀ (env : AssetEnv) (ctx : FsPath) (raw : Bytes) (lock : Bool),
      env.parse_tileset raw = none →
      tilesetLoad env ctx (some raw) lock = some (.error .ParseError)) ∧
    (∀ (env : AssetEnv) (ctx : FsPath) (raw : Bytes) (lock : Bool) (d : TilesetDef)
      (pre : List (TileGroupId × String)) (e : TileGroupId × String)
      (post : List (TileGroupId × String)) (err : TilesetError),
      env.parse_tileset raw = some d →
      d.tiles = pre ++ e :: post →
      (∀ x ∈ pre, ∃ td, stepTileDef env ctx x.2 = .ok td) →
      stepTileDef env ctx e.2 = .error err →
      tilesetLoad env ctx (some raw) lock = some (.error err)) := by
  refine ⟨fun env ctx lock => rfl, ?_, ?_⟩
  · intro env ctx raw lock hparse
    simp only [tilesetLoad, hparse]
  · intro env ctx raw lock d pre e post err hparse htiles hok herr
    have h₁ := loadTileDefs_first_error env ctx pre e post err hok herr
    simp only [tilesetLoad, hparse, htiles, h₁]

/-- Witness for C3: with the second tile-definition read failing, the load
returns exactly the first structural failure and no output. -/
theorem c3_structural_failure_aborts_witness :
    tilesetLoad envFail ctxW (some "RAW") false =
      some (.error .ReadAssetBytesError) :=
  c3_structural_failure_aborts.2.2 envFail ctxW "RAW" false dFail
    [(1, "a.tile")] (2, "b.tile") [(3, "c.tile")] .ReadAssetBytesError rfl rfl
    (fun x hx => ⟨tdW, by rw [List.mem_singleton.mp hx]; exact rfl⟩)
    rfl

/-- C4: the image phase is lenient and per-identity — provided no registered
path makes `load_image` panic, the phase completes without raising any error;
an identity whose fetch or decode failed is absent from the decoded image set,
and every identity whose load succeeded is included with its image. -/
theorem c4_lenient_image_phase (env : AssetEnv) (table : List (ImageHandle × String))
    (hnodup : (table.map Prod.fst).Nodup)
    (hnp : ∀ kv ∈ table, load_image env kv.1 kv.2 ≠ none) :
    (collectImages env table).isSome ∧
    (∀ kv ∈ table, ∀ e, load_image env kv.1 kv.2 = some (.error e) →
      ∀ img, (kv.1, img) ∉ (collectImages env table).getD []) ∧
    (∀ kv ∈ table, ∀ q, load_image env kv.1 kv.2 = some (.ok q) →
      q ∈ (collectImages env table).getD []) := by
  obtain ⟨imgs, hsome, habs, hmem⟩ := collectImages_spec env table hnodup hnp
  rw [hsome]
  refine ⟨rfl, ?_, ?_⟩
  · intro kv hkv e he img
    simpa using habs kv hkv e he img
  · intro kv hkv q hq
    simpa using hmem kv hkv q hq

/-- Witness for C4: with the load of `a.png` failing, the image phase still
completes, drops `a.png` and keeps `b.png`. -/
theorem c4_lenient_image_phase_witness :
    (collectImages envImg tableImg).isSome ∧
    ("a.png", "IMG") ∉ (collectImages envImg tableImg).getD [] ∧
    ("b.png", "IMG") ∈ (collectImages envImg tableImg).getD [] := by
  have H := c4_lenient_image_phase envImg tableImg (by decide) (by decide)
  exact ⟨H.1,
    H.2.1 ("a.png", "a.png") (by decide) .ReadAssetBytesError (by decide) "IMG",
    H.2.2 ("b.png", "b.png") (by decide) ("b.png", "IMG") (by decide)⟩

/-- C8: the path used to read a tile-definition file is the reference joined
to the parent directory of the tileset definition file; an absolute reference
passes through unchanged, and when the tileset file has no parent directory
the reference is used as-is. -/
theorem c8_tile_path_resolution (ctx ref : FsPath) :
    (∀ par, ctx.parent = some par → resolveTilePath ctx ref = par.join ref) ∧
    (ref.absolute = true → resolveTilePath ctx ref = ref) ∧
    (ctx.parent = none → resolveTilePath ctx ref = ref) := by
  refine ⟨?_, ?_, ?_⟩
  · intro par hp
    simp [resolveTilePath, hp]
  · intro habs
    cases hp : ctx.parent with
    | none => simp [resolveTilePath, hp]
    | some par => simp [resolveTilePath, hp, FsPath.join, habs]
  · intro hp
    simp [resolveTilePath, hp]

/-- Witness for C8: a relative reference is joined to the tileset file's
directory, an absolute reference passes through, and with no parent directory
the reference is used as-is. -/
theorem c8_tile_path_resolution_witness :
    resolveTilePath ctxW (parsePath "a.tile") =
      FsPath.join ⟨false, ["dir"]⟩ (parsePath "a.tile") ∧
    resolveTilePath ctxW (parsePath "/abs.tile") = parsePath "/abs.tile" ∧
    resolveTilePath ⟨false, []⟩ (parsePath "a.tile") = parsePath "a.tile" :=
  ⟨(c8_tile_path_resolution ctxW (parsePath "a.tile")).1 ⟨false, ["dir"]⟩ rfl,
   (c8_tile_path_resolution ctxW (parsePath "/abs.tile")).2.1 rfl,
   (c8_tile_path_resolution ⟨false, []⟩ (parsePath "a.tile")).2.2 rfl⟩

/-- C9: `load_image` is partial on its path — when the registered path has an
extension it always returns a value (a decoded image or an error value), and
when it has none and the byte read succeeds, it reaches `extension().unwrap()`
and panics instead of producing an error value. -/
theorem c9_load_image_extension_partiality (env : AssetEnv) (imgId : ImageHandle)
    (path : String) :
    ((pathExtension path).isSome → (load_image env imgId path).isSome) ∧
    (pathExtension path = none →
      ∀ b, env.read_asset_bytes path = some b → load_image env imgId path = none) := by
  constructor
  · intro hext
    cases hr : env.read_asset_bytes path with
    | none => simp [load_image, hr]
    | some b =>
      cases he : pathExtension path with
      | none => rw [he] at hext; simp at hext
      | some ext =>
        cases hb : env.from_buffer b ext with
        | none => simp [load_image, hr, he, hb]
        | some img => simp [load_image, hr, he, hb]
  · intro hext b hr
    simp [load_image, hr, hext]

/-- Witness for C9: under the all-succeeding environment, `a.png` (which has
an extension) loads to a value, while `noext` (read succeeds, no extension)
panics. -/
theorem c9_load_image_extension_partiality_witness :
    (load_image envOk "a.png" "a.png").isSome ∧
    load_image envOk "noext" "noext" = none :=
  ⟨(c9_load_image_extension_partiality envOk "a.png" "a.png").1 (by decide),
   (c9_load_image_extension_partiality envOk "noext" "noext").2 rfl "BYTES" rfl⟩

end TilesetSpec
